import Mathlib

/-!
Verification of the `got` object store (src/src/main.rs) against its
specification.  Strings from the Rust side are modelled as their UTF-8 byte
sequences (`List Nat`, each element < 256), which matches Rust `String`/`&[u8]`
semantics for hashing, splitting on delimiter bytes, and byte-wise ordering.
-/

namespace Got

/-- ASCII/UTF-8 bytes of a Lean string (used for concrete inputs; all concrete
inputs in this development are ASCII, where code points coincide with bytes). -/
def ascii (s : String) : List Nat := s.data.map Char.toNat

/-- Emit the decimal digits of `n` (most significant first) in front of
`acc`; the fuel argument only bounds the recursion depth. -/
def decimalBytesCore : Nat → Nat → List Nat → List Nat
  | 0, _, acc => acc
  | fuel + 1, n, acc =>
    let d := 48 + n % 10
    if n / 10 = 0 then d :: acc else decimalBytesCore fuel (n / 10) (d :: acc)

/-- Decimal ASCII rendering of a natural number, as produced by Rust
`format!("{}", n)` for an unsigned integer. -/
def decimalBytes (n : Nat) : List Nat := decimalBytesCore (n + 1) n []

/-- Lowercase hex digit for a value < 16, as produced by `format!("{:x}", _)`. -/
def hexDigit (d : Nat) : Nat := if d < 10 then 48 + d else 87 + d

/-- Two lowercase hex digits for one byte, as `format!("{:02x}", b)` (main.rs
line 283). -/
def hexByte (b : Nat) : List Nat := [hexDigit (b / 16), hexDigit (b % 16)]

/-- Render raw bytes to lowercase hex (used for 20-byte tree-entry hashes and
for the 40-char object id `format!("{:x}", hasher.finalize())`). -/
def hexBytes (l : List Nat) : List Nat := l.flatMap hexByte

/-! ### SHA-1 (RFC 3174), the digest used by the `sha1` crate

Machine words are `Nat` reduced mod 2^32. -/

def w32 (x : Nat) : Nat := x % 4294967296

/-- Rotate a 32-bit word left by `k` bits. -/
def rotl (x k : Nat) : Nat := w32 ((x <<< k) ||| (x >>> (32 - k)))

/-- Big-endian byte rendering of `v` in `n` bytes. -/
def beBytes (n v : Nat) : List Nat :=
  (List.range n).map fun i => (v >>> (8 * (n - 1 - i))) % 256

/-- SHA-1 message padding: `0x80`, zeros to 56 mod 64, then the 64-bit
big-endian bit length. -/
def sha1Pad (msg : List Nat) : List Nat :=
  msg ++ [128] ++ List.replicate ((64 - ((msg.length + 9) % 64)) % 64) 0
      ++ beBytes 8 (8 * msg.length)

/-- The sixteen 32-bit big-endian words of one 64-byte block. -/
def blockWords (blk : List Nat) : List Nat :=
  (List.range 16).map fun i =>
    blk.getD (4 * i) 0 * 16777216 + blk.getD (4 * i + 1) 0 * 65536 +
    blk.getD (4 * i + 2) 0 * 256 + blk.getD (4 * i + 3) 0

/-- Extend 16 words to the 80-word message schedule. -/
def extendWords (ws : List Nat) : List Nat :=
  (List.range 64).foldl
    (fun acc _ =>
      let i := acc.length
      acc ++ [rotl (((acc.getD (i - 3) 0).xor (acc.getD (i - 8) 0)).xor
        (((acc.getD (i - 14) 0).xor (acc.getD (i - 16) 0)))) 1])
    ws

/-- Round function. -/
def sha1F (i b c d : Nat) : Nat :=
  if i < 20 then (b &&& c) ||| ((b ^^^ 4294967295) &&& d)
  else if i < 40 then (b ^^^ c) ^^^ d
  else if i < 60 then ((b &&& c) ||| (b &&& d)) ||| (c &&& d)
  else (b ^^^ c) ^^^ d

/-- Round constant. -/
def sha1K (i : Nat) : Nat :=
  if i < 20 then 1518500249
  else if i < 40 then 1859775393
  else if i < 60 then 2400959708
  else 3395469782

/-- Compress one 64-byte block into the running state. -/
def sha1Block (h : Nat × Nat × Nat × Nat × Nat) (blk : List Nat) :
    Nat × Nat × Nat × Nat × Nat :=
  let ws := extendWords (blockWords blk)
  let st := (List.range 80).foldl
    (fun st i =>
      let (a, b, c, d, e) := st
      let t := w32 (rotl a 5 + sha1F i b c d + e + sha1K i + ws.getD i 0)
      (t, a, rotl b 30, c, d))
    h
  let (a, b, c, d, e) := st
  (w32 (h.1 + a), w32 (h.2.1 + b), w32 (h.2.2.1 + c), w32 (h.2.2.2.1 + d),
    w32 (h.2.2.2.2 + e))

/-- SHA-1 digest of a byte sequence, as 20 raw bytes. -/
def sha1Bytes (msg : List Nat) : List Nat :=
  let padded := sha1Pad msg
  let blocks := (List.range (padded.length / 64)).map
    fun i => (padded.drop (64 * i)).take 64
  let h := blocks.foldl sha1Block
    (1732584193, 4023233417, 2562383102, 271733878, 3285377520)
  beBytes 4 h.1 ++ beBytes 4 h.2.1 ++ beBytes 4 h.2.2.1 ++ beBytes 4 h.2.2.2.1
    ++ beBytes 4 h.2.2.2.2

/-- The 40-character lowercase-hex object id of a byte sequence
(`format!("{:x}", hasher.finalize())`, main.rs line 386). -/
def sha1Hex (msg : List Nat) : List Nat := hexBytes (sha1Bytes msg)

/-! ### Data model (main.rs lines 17, 112-117, 154-163, 190-194) -/

/-- `GIT_OBJECT_PATH = ".git/objects"` (line 17), as path bytes. -/
def GIT_OBJECT_PATH : List Nat := ascii ".git/objects"

/-- `NODE_HASH_BYTES_LENGTH = 20` (line 18). -/
def NODE_HASH_BYTES_LENGTH : Nat := 20

/-- `struct TreeNode` (lines 112-116).  `name` and `hash` are the UTF-8 bytes
of the Rust `String`s. -/
structure TreeNode where
  name : List Nat
  hash : List Nat
  mode : Nat
deriving DecidableEq, Repr

/-- Model of `chrono::DateTime<FixedOffset>` restricted to what the program
observes of it: the Unix-second count (`"%s"`) and the fixed offset rendered
as a sign and a four-digit `HHMM` (`"%z"`).  Modelled from the documented
behaviour of the external `chrono` crate. -/
structure Timestamp where
  secs : Int
  tzNeg : Bool
  tzHH : Nat
  tzMM : Nat
deriving DecidableEq, Repr

/-- Decimal rendering of a possibly negative integer, as `format!` / `%s`. -/
def decimalInt (i : Int) : List Nat :=
  if i < 0 then 45 :: decimalBytes i.natAbs else decimalBytes i.natAbs

/-- Two-digit zero-padded decimal (for `%z`'s hour and minute fields). -/
def pad2 (n : Nat) : List Nat := [48 + n / 10, 48 + n % 10]

/-- `timestamp.format("%s %z").to_string()` (lines 176 and 183), per chrono's
documented format codes: Unix seconds, a space, then `±HHMM`. -/
def Timestamp.fmt (t : Timestamp) : List Nat :=
  decimalInt t.secs ++ [32] ++ [if t.tzNeg then 45 else 43] ++ pad2 t.tzHH ++ pad2 t.tzMM

/-- `struct CommitContent` (lines 154-163). -/
structure CommitContent where
  tree_sha : List Nat
  parent_sha : Option (List Nat)
  author_name : List Nat
  author_email : List Nat
  committer : List Nat
  committer_email : List Nat
  message : List Nat
  timestamp : Timestamp
deriving DecidableEq, Repr

/-- `enum ObjectHashTypes` (lines 190-194). -/
inductive ObjectHashTypes
  | Blob (content : List Nat)
  | Tree (items : List TreeNode)
  | Commit (content : CommitContent)
deriving DecidableEq, Repr

/-! ### Encoding (main.rs lines 128-138, 165-188, 413-439) -/

/-- One hex digit value, as accepted by `u8::from_str_radix(_, 16)`. -/
def hexVal? (c : Nat) : Option Nat :=
  if 48 ≤ c ∧ c ≤ 57 then some (c - 48)
  else if 97 ≤ c ∧ c ≤ 102 then some (c - 87)
  else if 65 ≤ c ∧ c ≤ 70 then some (c - 55)
  else none

/-- Decode a hex string two characters at a time (lines 132-135).  `none`
models the `expect`/slice panics hit on invalid hex or odd length. -/
def hexPairs? : List Nat → Option (List Nat)
  | [] => some []
  | [_] => none
  | a :: b :: rest => do
      let hi ← hexVal? a
      let lo ← hexVal? b
      let r ← hexPairs? rest
      pure ((hi * 16 + lo) :: r)

/-- `TreeNode::encode` (lines 128-138): `"{} {}\0"` of mode and name, then the
raw decoded hash bytes.  `none` models the panic on a malformed hash. -/
def TreeNode.encode (t : TreeNode) : Option (List Nat) :=
  (hexPairs? t.hash).map fun h =>
    decimalBytes t.mode ++ [32] ++ t.name ++ [0] ++ h

/-- `Display for CommitContent` (lines 165-188): the sequence of `writeln!`
and the final `write!(f, "\n{}", message)`. -/
def CommitContent.fmt (c : CommitContent) : List Nat :=
  ascii "tree " ++ c.tree_sha ++ [10]
  ++ (match c.parent_sha with
      | some sha => ascii "parent " ++ sha ++ [10]
      | none => [])
  ++ (ascii "author " ++ c.author_name ++ [32] ++ c.author_email ++ [32]
      ++ c.timestamp.fmt ++ [10])
  ++ (ascii "committer " ++ c.committer ++ [32] ++ c.committer_email ++ [32]
      ++ c.timestamp.fmt ++ [10])
  ++ [10] ++ c.message

/-- Encode every tree item and concatenate (lines 420-423). -/
def encodeTreeItems : List TreeNode → Option (List Nat)
  | [] => some []
  | t :: rest => do pure ((← t.encode) ++ (← encodeTreeItems rest))

/-- The kind word used in the storage header for each object kind. -/
def kindWord : ObjectHashTypes → List Nat
  | .Blob _ => ascii "blob"
  | .Tree _ => ascii "tree"
  | .Commit _ => ascii "commit"

/-- The `(meta_data, content)` pair built by `write_object_hash`
(lines 414-436): the header is `"<kind> <content-byte-length>\0"`.  `none`
models the panic propagated from `TreeNode::encode`. -/
def encodeObject : ObjectHashTypes → Option (List Nat × List Nat)
  | .Blob content =>
      some (ascii "blob " ++ decimalBytes content.length ++ [0], content)
  | .Tree items =>
      (encodeTreeItems items).map fun content =>
        (ascii "tree " ++ decimalBytes content.length ++ [0], content)
  | .Commit c =>
      let cc := c.fmt
      some (ascii "commit " ++ decimalBytes cc.length ++ [0], cc)

/-! ### The store (main.rs lines 59-93, 380-439)

The filesystem is modelled as an association list from full file paths to the
stored byte content.  Directories are implicit (`create_dir_all` cannot fail
into a state the program observes), and the zlib envelope — an invertible
byte-stream encoding applied on write (lines 405-408) and removed on read
(line 234) — is elided, so a file holds the raw `meta_data ++ content`. -/

abbrev Store := List (List Nat × List Nat)

/-- `Path::exists` on the model filesystem. -/
def pathExists (fs : Store) (p : List Nat) : Bool := fs.any (·.1 == p)

/-- `get_path_from_hash` (lines 59-65): split a hash into the 2-character
shard directory and the rest.  (Rust slices `[..2]`/`[2..]`, which would
panic on a hash shorter than 2 bytes; hashes here are 40 hex characters.) -/
def get_path_from_hash (object_hash : List Nat) : List Nat × List Nat :=
  (object_hash.take 2, object_hash.drop 2)

inductive StoreErr
  | alreadyExists
deriving DecidableEq, Repr

instance {ε α : Type} [DecidableEq ε] [DecidableEq α] :
    DecidableEq (Except ε α) := fun a b =>
  match a, b with
  | .ok x, .ok y =>
    if h : x = y then .isTrue (by rw [h]) else .isFalse (by simp [h])
  | .error e, .error f =>
    if h : e = f then .isTrue (by rw [h]) else .isFalse (by simp [h])
  | .ok _, .error _ => .isFalse (by simp)
  | .error _, .ok _ => .isFalse (by simp)

/-- `write_object` (lines 380-411): digest `meta_data ++ content`, derive the
sharded path, return the id unchanged if the file exists, otherwise create it
exclusively and persist the bytes. -/
def write_object (fs : Store) (meta_data content : List Nat) :
    Except StoreErr (Store × List Nat) :=
  let hash_object := sha1Hex (meta_data ++ content)
  let (dir_path, hash) := get_path_from_hash hash_object
  let full_dir_path := GIT_OBJECT_PATH ++ [47] ++ dir_path
  let full_path := full_dir_path ++ [47] ++ hash
  if pathExists fs full_path then
    .ok (fs, hash_object)
  else if pathExists fs full_path then
    -- `OpenOptions::create_new` exclusive creation (lines 398-402)
    .error .alreadyExists
  else
    .ok ((full_path, meta_data ++ content) :: fs, hash_object)

/-- The on-disk path derived for a `(meta_data, content)` pair. -/
def object_full_path (meta_data content : List Nat) : List Nat :=
  let h := sha1Hex (meta_data ++ content)
  GIT_OBJECT_PATH ++ [47] ++ h.take 2 ++ [47] ++ h.drop 2

inductive LookupErr
  | noMatching        -- bail! "no matching path for hash" (line 84)
  | multipleMatching  -- bail! "multiple matching for hash" (lines 86-89)
deriving DecidableEq, Repr

/-- Rust `str::starts_with(pat)` on byte strings: `startsWith l p` is true
when `p` is an initial segment of `l`. -/
def startsWith : List Nat → List Nat → Bool
  | _, [] => true
  | [], _ :: _ => false
  | a :: as, b :: bs => if a = b then startsWith as bs else false

/-- `get_object_path` (lines 67-93).  `files` is the listing of plain-file
names in the shard directory `.git/objects/<dir_path>`. -/
def get_object_path (files : List (List Nat)) (dir_path hash_path : List Nat) :
    Except LookupErr (List Nat) :=
  let full_dir_path := GIT_OBJECT_PATH ++ [47] ++ dir_path
  let possible_hash_path := files.filter (fun f => startsWith f hash_path)
  if possible_hash_path.isEmpty then
    .error .noMatching
  else if possible_hash_path.length > 1 then
    .error .multipleMatching
  else
    .ok (full_dir_path ++ [47] ++ possible_hash_path.headD [])

/-! ### Decoding (main.rs lines 213-378)

`parse_object_hash` takes the decompressed byte stream of a stored object
(path resolution and the zlib envelope are handled before this point). -/

/-- Value of a nonempty all-digit byte string. -/
def digitsVal? (l : List Nat) : Option Nat :=
  if l.isEmpty then none
  else if l.all (fun c => 48 ≤ c && c ≤ 57) then
    some (l.foldl (fun a c => a * 10 + (c - 48)) 0)
  else none

/-- Rust unsigned-integer `parse`: an optional leading `+`, then digits.
(The `usize` overflow bound is elided: real inputs are in-memory byte
lengths, which always fit `usize`.) -/
def rustParseNat? (l : List Nat) : Option Nat :=
  if l.head? = some 43 then digitsVal? l.tail else digitsVal? l

/-- `str::parse::<u32>` (line 277): as above but overflow fails. -/
def parse_u32? (l : List Nat) : Option Nat :=
  (rustParseNat? l).filter (· < 4294967296)

/-- Whether a continuation byte is valid (`0x80..=0xBF`). -/
def utf8Cont (c : Nat) : Bool := 128 ≤ c && c ≤ 191

/-- UTF-8 validation as performed by `String::from_utf8` (rejecting overlong
forms, surrogates, and code points above `0x10FFFF`).  The fuel argument only
bounds the recursion; `validUtf8` supplies enough. -/
def validUtf8Fuel : Nat → List Nat → Bool
  | _, [] => true
  | 0, _ :: _ => false
  | fuel + 1, c :: rest =>
    if c < 128 then validUtf8Fuel fuel rest
    else if 194 ≤ c && c ≤ 223 then
      match rest with
      | c1 :: r => utf8Cont c1 && validUtf8Fuel fuel r
      | [] => false
    else if c == 224 then
      match rest with
      | c1 :: c2 :: r => (160 ≤ c1 && c1 ≤ 191) && utf8Cont c2 && validUtf8Fuel fuel r
      | _ => false
    else if (225 ≤ c && c ≤ 236) || c == 238 || c == 239 then
      match rest with
      | c1 :: c2 :: r => utf8Cont c1 && utf8Cont c2 && validUtf8Fuel fuel r
      | _ => false
    else if c == 237 then
      match rest with
      | c1 :: c2 :: r => (128 ≤ c1 && c1 ≤ 159) && utf8Cont c2 && validUtf8Fuel fuel r
      | _ => false
    else if c == 240 then
      match rest with
      | c1 :: c2 :: c3 :: r =>
        (144 ≤ c1 && c1 ≤ 191) && utf8Cont c2 && utf8Cont c3 && validUtf8Fuel fuel r
      | _ => false
    else if 241 ≤ c && c ≤ 243 then
      match rest with
      | c1 :: c2 :: c3 :: r =>
        utf8Cont c1 && utf8Cont c2 && utf8Cont c3 && validUtf8Fuel fuel r
      | _ => false
    else if c == 244 then
      match rest with
      | c1 :: c2 :: c3 :: r =>
        (128 ≤ c1 && c1 ≤ 143) && utf8Cont c2 && utf8Cont c3 && validUtf8Fuel fuel r
      | _ => false
    else false

/-- `String::from_utf8` succeeds exactly on these byte lists. -/
def validUtf8 (l : List Nat) : Bool := validUtf8Fuel l.length l

inductive ParseErr
  | headerNotCStr      -- CStr::from_bytes_with_nul on the header (line 241)
  | headerNotUtf8      -- .to_str() on the header (line 246)
  | noContentType      -- parse_file_metadata, first token (lines 216-218)
  | noSize             -- parse_file_metadata, second token (lines 219-221)
  | badContentSize     -- content_size.parse() (lines 249-251)
  | blobNotUtf8        -- String::from_utf8 for a blob (line 258)
  | treeNoNul          -- no NUL delimiter in the tree body (lines 263-266)
  | treeMetaNotUtf8    -- .to_str() on a tree-entry header (line 273)
  | badMode            -- mode.parse::<u32>() (lines 276-278)
  | panicked           -- a Rust PANIC (slice range out of bounds, line 281),
                       -- i.e. a crash, not an `Err` the caller can see
  | commitNotUtf8      -- String::from_utf8 for a commit (line 297)
  | noSeparator        -- no blank separator line (lines 304-307)
  | noTree             -- missing `tree` header line (lines 330-331)
  | noAuthor           -- missing `author` header line (lines 333-334)
  | noCommitter        -- missing `committer` header line (lines 335-336)
  | noAuthorEmail      -- lines 341-344
  | noUnixTs           -- lines 345-347
  | noTz               -- lines 348-350
  | badTimestamp       -- chrono parse_from_str failure (lines 351-353)
  | noCommitterEmail   -- lines 358-363
  | unsupportedType    -- bail! "unsupported type" (line 376)
  | outOfFuel          -- artefact of the fuelled tree loop; never returned
deriving DecidableEq, Repr

/-- `parse_file_metadata` (lines 213-225): split on single spaces, take the
first two tokens. -/
def parse_file_metadata (meta_data : List Nat) :
    Except ParseErr (List Nat × List Nat) :=
  match meta_data.splitOn 32 with
  | [] => .error .noContentType   -- unreachable: splitOn never returns []
  | [_] => .error .noSize
  | a :: b :: _ => .ok (a, b)

/-- The tree-entry loop (lines 261-293), consuming the body from the front.
Each entry is `<mode> <name>\0` plus `NODE_HASH_BYTES_LENGTH` raw bytes; when
fewer than 20 bytes follow the NUL the Rust slice
`buffer[sha_start..sha_start + NODE_HASH_BYTES_LENGTH]` panics (`.panicked`).
Called with fuel ≥ the buffer length, which the loop never exhausts. -/
def parseTreeLoop : Nat → List Nat → Except ParseErr (List TreeNode)
  | _, [] => .ok []
  | 0, _ :: _ => .error .outOfFuel
  | fuel + 1, buf =>
    match buf.findIdx? (· == 0) with
    | none => .error .treeNoNul
    | some null_offset =>
      let node_metadata := buf.take null_offset
      if validUtf8 node_metadata then
        match parse_file_metadata node_metadata with
        | .error e => .error e
        | .ok (mode_s, name) =>
          match parse_u32? mode_s with
          | none => .error .badMode
          | some mode =>
            let rest := buf.drop (null_offset + 1)
            if rest.length < NODE_HASH_BYTES_LENGTH then
              .error .panicked
            else
              match parseTreeLoop fuel (rest.drop NODE_HASH_BYTES_LENGTH) with
              | .error e => .error e
              | .ok nodes =>
                .ok ({ name := name,
                       hash := hexBytes (rest.take NODE_HASH_BYTES_LENGTH),
                       mode := mode } :: nodes)
      else .error .treeMetaNotUtf8

/-- Decimal integer with optional leading minus, as chrono's `%s`. -/
def parse_int? (l : List Nat) : Option Int :=
  if l.head? = some 45 then (digitsVal? l.tail).map (fun n => -(n : Int))
  else (digitsVal? l).map (fun n => (n : Int))

/-- `chrono::DateTime::parse_from_str(_, "%s %z")` on the two tokens
(lines 351-353).  Modelled from chrono's documented behaviour: `%s` is an
optionally negative second count, `%z` a mandatory sign and four digits
`HHMM`, with the resulting offset below 24 hours. -/
def parse_timestamp (unix_ts tz : List Nat) : Option Timestamp :=
  match parse_int? unix_ts with
  | none => none
  | some secs =>
    match tz with
    | [s, d1, d2, d3, d4] =>
      if (s == 43 || s == 45) &&
          [d1, d2, d3, d4].all (fun c => 48 ≤ c && c ≤ 57) then
        let hh := (d1 - 48) * 10 + (d2 - 48)
        let mm := (d3 - 48) * 10 + (d4 - 48)
        if hh * 60 + mm < 1440 then some ⟨secs, s == 45, hh, mm⟩ else none
      else none
    | _ => none

/-- The `find_field` closure (lines 319-328): the first header line that is
`<prefix> <rest>`, returning `rest`. -/
def find_field (header_lines : List (Option (List Nat))) (pfx : List Nat) :
    Option (List Nat) :=
  ((header_lines.filterMap id).find? fun ln =>
      startsWith ln pfx && ln[pfx.length]? == some 32).map
    fun ln => ln.drop (pfx.length + 1)

/-- The positional split of an `author`/`committer` line (lines 338-350 and
355-363): tokens by single spaces; with `n` tokens, the name is the first
`n - 3` rejoined by spaces, then one token each for email, Unix seconds and
timezone (the committer path reads only the name and email components). -/
def author_fields (ln : List Nat) :
    List Nat × Option (List Nat) × Option (List Nat) × Option (List Nat) :=
  let parts := ln.splitOn 32
  let n := parts.length
  (List.intercalate [32] (parts.take (n - 3)),
    parts[n - 3]?, parts[n - 2]?, parts[n - 1]?)

/-- The commit branch of `parse_object_hash` (lines 296-375). -/
def parse_commit (buffer : List Nat) : Except ParseErr CommitContent :=
  if validUtf8 buffer then
    let lines := (buffer.splitOn 10).map
      fun l => if l.isEmpty then none else some l
    match lines.findIdx? (fun l => l.isNone) with
    | none => .error .noSeparator
    | some separator_pos =>
      let message := List.intercalate [10]
        ((lines.drop (separator_pos + 1)).filterMap id)
      let header_lines := lines.take separator_pos
      match find_field header_lines (ascii "tree") with
      | none => .error .noTree
      | some tree_sha =>
        let parent_sha := find_field header_lines (ascii "parent")
        match find_field header_lines (ascii "author") with
        | none => .error .noAuthor
        | some author_line =>
          match find_field header_lines (ascii "committer") with
          | none => .error .noCommitter
          | some committer_line =>
            match author_fields author_line with
            | (author_name, author_email?, unix_ts?, tz?) =>
              match author_email? with
              | none => .error .noAuthorEmail
              | some author_email =>
                match unix_ts? with
                | none => .error .noUnixTs
                | some unix_ts =>
                  match tz? with
                  | none => .error .noTz
                  | some tz =>
                    match parse_timestamp unix_ts tz with
                    | none => .error .badTimestamp
                    | some timestamp =>
                      match author_fields committer_line with
                      | (committer, committer_email?, _, _) =>
                        match committer_email? with
                        | none => .error .noCommitterEmail
                        | some committer_email =>
                          .ok { tree_sha, parent_sha, author_name,
                                author_email, committer, committer_email,
                                message, timestamp }
  else .error .commitNotUtf8

/-- `parse_object_hash` (lines 227-378) from the decompressed byte stream:
read up to the first NUL, parse `<kind> <size>`, read the body — note the
discarded `read_exact` result at line 254, which leaves the zero-initialised
tail of the buffer in place when the stream is short — then dispatch. -/
def parse_object_hash (bytes : List Nat) : Except ParseErr ObjectHashTypes :=
  match bytes.findIdx? (· == 0) with
  | none => .error .headerNotCStr   -- read_until hit EOF with no NUL
  | some i =>
    let meta_data := bytes.take i
    if validUtf8 meta_data then
      match parse_file_metadata meta_data with
      | .error e => .error e
      | .ok (content_type, content_size_s) =>
        match rustParseNat? content_size_s with
        | none => .error .badContentSize
        | some content_size =>
          let remaining := bytes.drop (i + 1)
          let buffer := remaining.take content_size
            ++ List.replicate (content_size - remaining.length) 0
          if content_type = ascii "blob" then
            if validUtf8 buffer then .ok (.Blob buffer)
            else .error .blobNotUtf8
          else if content_type = ascii "tree" then
            (parseTreeLoop (buffer.length + 1) buffer).map .Tree
          else if content_type = ascii "commit" then
            (parse_commit buffer).map .Commit
          else .error .unsupportedType
    else .error .headerNotUtf8

/-! ### The tree builder's sort (main.rs line 480) -/

/-- Byte-wise three-way comparison, as Rust `Ord::cmp` on `String` (which
compares the UTF-8 bytes lexicographically). -/
def bytesCmp : List Nat → List Nat → Ordering
  | [], [] => .eq
  | [], _ :: _ => .lt
  | _ :: _, [] => .gt
  | a :: as, b :: bs =>
    if a < b then .lt else if b < a then .gt else bytesCmp as bs

/-- `a.name.cmp(&b.name) != Greater`: the "less or equal" ordering used by
the stable sort at line 480. -/
def nameLe (a b : TreeNode) : Prop := bytesCmp a.name b.name ≠ Ordering.gt

instance : DecidableRel nameLe := fun a b =>
  inferInstanceAs (Decidable (bytesCmp a.name b.name ≠ Ordering.gt))

/-- Strict byte-wise name order. -/
def nameLt (a b : TreeNode) : Prop := bytesCmp a.name b.name = Ordering.lt

/-- `tree_nodes.sort_by(|a, b| a.name.cmp(&b.name))` (line 480).  Rust's
`sort_by` is a stable sort driven by the comparator; `insertionSort` is a
stable sort with the same ordering, hence computes the same list. -/
def sortTreeNodes (l : List TreeNode) : List TreeNode :=
  List.insertionSort nameLe l

/-- `write_object_hash` (lines 413-439): encode, then hash-and-store.
`none` models the panic from `TreeNode::encode` on a malformed hash. -/
def write_object_hash (fs : Store) (o : ObjectHashTypes) :
    Option (Except StoreErr (Store × List Nat)) :=
  (encodeObject o).map fun (m, c) => write_object fs m c

/-! ### Spec-side renderings, for the refinement claims -/

/-- An author/committer line exactly as §4.2 of the spec words it:
`<field> <name> <email> <unix-seconds> <±HHMM>`. -/
def specPersonLine (field name email : List Nat) (t : Timestamp) : List Nat :=
  field ++ [32] ++ name ++ [32] ++ email ++ [32] ++ decimalInt t.secs ++ [32]
    ++ ([if t.tzNeg then 45 else 43] ++ pad2 t.tzHH ++ pad2 t.tzMM)

/-- The commit body as the spec words it: a `tree <hex-id>` line, a
`parent <hex-id>` line iff a parent is present, an author line, a committer
line, a single blank line, then the message with nothing appended. -/
def commitSpecBytes (c : CommitContent) : List Nat :=
  (ascii "tree" ++ [32] ++ c.tree_sha) ++ [10]
  ++ (match c.parent_sha with
      | some p => (ascii "parent" ++ [32] ++ p) ++ [10]
      | none => [])
  ++ specPersonLine (ascii "author") c.author_name c.author_email c.timestamp
  ++ [10]
  ++ specPersonLine (ascii "committer") c.committer c.committer_email
      c.timestamp
  ++ [10]
  ++ [10] ++ c.message

/-- The message reconstruction claim C10 describes: split the body on
newlines, locate the first empty line, keep only the nonempty subsequent
lines and rejoin them with single newlines. -/
def message_of (body : List Nat) : Option (List Nat) :=
  let lines := (body.splitOn 10).map fun l => if l.isEmpty then none else some l
  (lines.findIdx? (fun l => l.isNone)).map fun sep =>
    List.intercalate [10] ((lines.drop (sep + 1)).filterMap id)

/-! ## Supporting lemmas -/

theorem bytesCmp_swap : ∀ a b : List Nat, bytesCmp b a = (bytesCmp a b).swap
  | [], [] => rfl
  | [], _ :: _ => rfl
  | _ :: _, [] => rfl
  | a :: as, b :: bs => by
    simp only [bytesCmp]
    rcases Nat.lt_trichotomy a b with h | h | h
    · simp [h, Nat.lt_asymm h, Ordering.swap]
    · subst h
      simp [Nat.lt_irrefl, bytesCmp_swap as bs]
    · simp [h, Nat.lt_asymm h, Ordering.swap]

theorem bytesCmp_eq_iff : ∀ a b : List Nat, bytesCmp a b = .eq ↔ a = b
  | [], [] => by simp [bytesCmp]
  | [], _ :: _ => by simp [bytesCmp]
  | _ :: _, [] => by simp [bytesCmp]
  | a :: as, b :: bs => by
    simp only [bytesCmp]
    rcases Nat.lt_trichotomy a b with h | h | h
    · simp [h, Nat.ne_of_lt h]
    · subst h
      simp [Nat.lt_irrefl, bytesCmp_eq_iff as bs]
    · simp [Nat.lt_asymm h, h, (Nat.ne_of_lt h).symm]

theorem bytesCmp_le_trans : ∀ {a b c : List Nat},
    bytesCmp a b ≠ .gt → bytesCmp b c ≠ .gt → bytesCmp a c ≠ .gt
  | [], _, c, _, _ => by cases c <;> simp [bytesCmp]
  | _ :: _, [], _, h1, _ => absurd rfl h1
  | _ :: _, _ :: _, [], _, h2 => absurd rfl h2
  | x :: xs, y :: ys, z :: zs, h1, h2 => by
    simp only [bytesCmp] at h1 h2 ⊢
    have hyx : ¬ y < x := by
      intro h
      rw [if_neg (Nat.lt_asymm h), if_pos h] at h1
      exact h1 rfl
    have hzy : ¬ z < y := by
      intro h
      rw [if_neg (Nat.lt_asymm h), if_pos h] at h2
      exact h2 rfl
    by_cases hxz : x < z
    · simp [hxz]
    · have hzx : ¬ z < x := by omega
      have hxy : ¬ x < y := by omega
      have hyz : ¬ y < z := by omega
      rw [if_neg hxy, if_neg hyx] at h1
      rw [if_neg hyz, if_neg hzy] at h2
      rw [if_neg hxz, if_neg hzx]
      exact bytesCmp_le_trans h1 h2

instance : IsTotal TreeNode nameLe :=
  ⟨fun a b => by
    unfold nameLe
    rcases h : bytesCmp a.name b.name with _ | _ | _
    · exact Or.inl (by simp [h])
    · exact Or.inl (by simp [h])
    · refine Or.inr ?_
      rw [bytesCmp_swap, h]
      simp [Ordering.swap]⟩

instance : IsTrans TreeNode nameLe := ⟨fun _ _ _ => bytesCmp_le_trans⟩

instance : IsAntisymm TreeNode nameLt :=
  ⟨fun a b h1 h2 => by
    unfold nameLt at h1 h2
    rw [bytesCmp_swap, h1] at h2
    simp [Ordering.swap] at h2⟩

/-- Two permutations of the same multiset of entries with pairwise distinct
names sort to the same list (determinism of the line-480 sort). -/
theorem sortTreeNodes_eq_of_perm {l₁ l₂ : List TreeNode} (hp : l₁.Perm l₂)
    (hn : l₁.Pairwise fun a b => a.name ≠ b.name) :
    sortTreeNodes l₁ = sortTreeNodes l₂ := by
  have hsym : ∀ {a b : TreeNode}, a.name ≠ b.name → b.name ≠ a.name :=
    fun h => h.symm
  have hperm : (sortTreeNodes l₁).Perm (sortTreeNodes l₂) :=
    (List.perm_insertionSort _ l₁).trans
      (hp.trans (List.perm_insertionSort _ l₂).symm)
  have hn₁ : (sortTreeNodes l₁).Pairwise fun a b => a.name ≠ b.name :=
    hn.perm (List.perm_insertionSort _ l₁).symm hsym
  have hn₂ : (sortTreeNodes l₂).Pairwise fun a b => a.name ≠ b.name :=
    (hn.perm hp hsym).perm (List.perm_insertionSort _ l₂).symm hsym
  have strict : ∀ {l : List TreeNode}, List.Sorted nameLe l →
      (l.Pairwise fun a b => a.name ≠ b.name) → List.Sorted nameLt l := by
    intro l hs hd
    refine (hs.and hd).imp ?_
    rintro a b ⟨hle, hne⟩
    unfold nameLt
    rcases h : bytesCmp a.name b.name with _ | _ | _
    · rfl
    · exact absurd ((bytesCmp_eq_iff _ _).1 h) hne
    · exact absurd h hle
  exact List.eq_of_perm_of_sorted hperm
    (strict (List.sorted_insertionSort _ _) hn₁)
    (strict (List.sorted_insertionSort _ _) hn₂)

theorem decimalBytesCore_append (fuel : Nat) :
    ∀ (n : Nat) (acc : List Nat),
      decimalBytesCore fuel n acc = decimalBytesCore fuel n [] ++ acc := by
  induction fuel with
  | zero => intro n acc; rfl
  | succ fuel ih =>
    intro n acc
    by_cases h : n / 10 = 0
    · simp [decimalBytesCore, h]
    · rw [decimalBytesCore, decimalBytesCore, if_neg h, if_neg h,
        ih (n / 10) ((48 + n % 10) :: acc), ih (n / 10) [48 + n % 10]]
      simp

theorem decimalBytesCore_fuel (fuel : Nat) :
    ∀ (fuel' n : Nat), n < fuel → n < fuel' →
      decimalBytesCore fuel n [] = decimalBytesCore fuel' n [] := by
  induction fuel with
  | zero => intro _ n h; omega
  | succ fuel ih =>
    intro fuel' n h h'
    match fuel', h' with
    | fuel' + 1, h' =>
      by_cases h0 : n / 10 = 0
      · simp [decimalBytesCore, h0]
      · rw [decimalBytesCore, decimalBytesCore, if_neg h0, if_neg h0,
          decimalBytesCore_append fuel, decimalBytesCore_append fuel',
          ih fuel' (n / 10) (by omega) (by omega)]

theorem decimalBytes_step {n : Nat} (h : 10 ≤ n) :
    decimalBytes n = decimalBytes (n / 10) ++ [48 + n % 10] := by
  have h0 : n / 10 ≠ 0 := by omega
  rw [decimalBytes, decimalBytes, decimalBytesCore, if_neg h0,
    decimalBytesCore_append n,
    decimalBytesCore_fuel n (n / 10 + 1) (n / 10) (by omega) (by omega)]

theorem decimalBytes_lt {n : Nat} (h : n < 10) : decimalBytes n = [48 + n] := by
  have h0 : n / 10 = 0 := by omega
  have hm : n % 10 = n := by omega
  rw [decimalBytes, decimalBytesCore, if_pos h0, hm]

/-- `decimalBytes` produces a nonempty string of decimal digit characters
whose value reads back to `n`. -/
theorem decimalBytes_spec (n : Nat) :
    decimalBytes n ≠ []
    ∧ (∀ c ∈ decimalBytes n, 48 ≤ c ∧ c ≤ 57)
    ∧ ∀ a, (decimalBytes n).foldl (fun a c => a * 10 + (c - 48)) a
        = a * 10 ^ (decimalBytes n).length + n := by
  induction n using Nat.strong_induction_on with
  | _ n ih =>
    by_cases h : n < 10
    · rw [decimalBytes_lt h]
      refine ⟨by simp, by intro c hc; simp at hc; omega, ?_⟩
      intro a
      simp only [List.foldl_cons, List.foldl_nil, List.length_cons,
        List.length_nil, pow_succ, pow_zero, one_mul]
      omega
    · push_neg at h
      obtain ⟨hne, hdig, hval⟩ := ih (n / 10) (by omega)
      rw [decimalBytes_step h]
      refine ⟨by simp, ?_, ?_⟩
      · intro c hc
        rcases List.mem_append.1 hc with hc | hc
        · exact hdig c hc
        · simp at hc; omega
      · intro a
        rw [List.foldl_append, hval a]
        simp only [List.foldl_cons, List.foldl_nil, List.length_append,
          List.length_cons, List.length_nil]
        have hmod : 48 + n % 10 - 48 = n % 10 := by omega
        rw [hmod]
        calc (a * 10 ^ (decimalBytes (n / 10)).length + n / 10) * 10 + n % 10
            = a * 10 ^ (decimalBytes (n / 10)).length * 10
              + (n / 10 * 10 + n % 10) := by ring
          _ = a * 10 ^ ((decimalBytes (n / 10)).length + 1) + n := by
              rw [pow_succ]
              have : n / 10 * 10 + n % 10 = n := by omega
              rw [this]
              ring

theorem digitsVal?_decimalBytes (n : Nat) :
    digitsVal? (decimalBytes n) = some n := by
  obtain ⟨hne, hdig, hval⟩ := decimalBytes_spec n
  rw [digitsVal?]
  rw [if_neg (by simpa using hne), if_pos]
  · rw [hval 0]
    simp
  · rw [List.all_eq_true]
    intro c hc
    have := hdig c hc
    simpa using this

theorem decimalBytes_head_digit (n : Nat) :
    ∃ c cs, decimalBytes n = c :: cs ∧ 48 ≤ c ∧ c ≤ 57 := by
  obtain ⟨hne, hdig, -⟩ := decimalBytes_spec n
  match h : decimalBytes n with
  | [] => exact absurd h hne
  | c :: cs =>
    have := hdig c (by rw [h]; exact List.mem_cons_self c cs)
    exact ⟨c, cs, rfl, this.1, this.2⟩

theorem rustParseNat?_decimalBytes (n : Nat) :
    rustParseNat? (decimalBytes n) = some n := by
  obtain ⟨c, cs, heq, hc1, hc2⟩ := decimalBytes_head_digit n
  unfold rustParseNat?
  rw [if_neg (by rw [heq]; simp; omega), digitsVal?_decimalBytes]

theorem decimalBytes_no_nul {n c : Nat} (hc : c ∈ decimalBytes n) : c ≠ 0 := by
  have := (decimalBytes_spec n).2.1 c hc
  omega

theorem decimalBytes_no_space {n c : Nat} (hc : c ∈ decimalBytes n) :
    c ≠ 32 := by
  have := (decimalBytes_spec n).2.1 c hc
  omega

theorem decimalBytes_ascii {n c : Nat} (hc : c ∈ decimalBytes n) : c < 128 := by
  have := (decimalBytes_spec n).2.1 c hc
  omega

theorem validUtf8Fuel_ascii :
    ∀ (fuel : Nat) (l : List Nat), l.length ≤ fuel → (∀ c ∈ l, c < 128) →
      validUtf8Fuel fuel l = true
  | 0, [], _, _ => rfl
  | _ + 1, [], _, _ => rfl
  | 0, _ :: _, hlen, _ => by simp at hlen
  | fuel + 1, c :: rest, hlen, hall => by
    simp only [validUtf8Fuel]
    rw [if_pos (hall c (List.mem_cons_self c rest))]
    exact validUtf8Fuel_ascii fuel rest (by simpa using hlen)
      fun d hd => hall d (List.mem_cons_of_mem c hd)

/-- All-ASCII byte lists are valid UTF-8. -/
theorem validUtf8_ascii {l : List Nat} (h : ∀ c ∈ l, c < 128) :
    validUtf8 l = true :=
  validUtf8Fuel_ascii l.length l le_rfl h

theorem intercalate_pair (s a b : List Nat) :
    List.intercalate s [a, b] = a ++ s ++ b := by
  simp [List.intercalate]

theorem startsWith_iff_eq : ∀ (l p : List Nat), l.length = p.length →
    (startsWith l p = true ↔ l = p)
  | [], [], _ => by simp [startsWith]
  | [], _ :: _, h => by simp at h
  | _ :: _, [], h => by simp at h
  | a :: as, b :: bs, h => by
    simp only [startsWith]
    by_cases hab : a = b
    · subst hab
      simp [startsWith_iff_eq as bs (by simpa using h)]
    · simp [hab]

theorem filter_nodup_singleton {α : Type} [DecidableEq α] {l : List α} {a : α}
    (hn : l.Nodup) (ha : a ∈ l) : l.filter (fun x => decide (x = a)) = [a] := by
  induction l with
  | nil => cases ha
  | cons b t ih =>
    rcases List.mem_cons.1 ha with heq | ha'
    · subst heq
      rw [List.filter_cons_of_pos (by simp)]
      have hnotin : a ∉ t := (List.nodup_cons.1 hn).1
      have ht : t.filter (fun x => decide (x = a)) = [] := by
        rw [List.filter_eq_nil_iff]
        intro x hx
        simp only [decide_eq_true_eq]
        exact fun hxa => hnotin (hxa ▸ hx)
      rw [ht]
    · have hba : b ≠ a := fun h => (List.nodup_cons.1 hn).1 (h ▸ ha')
      rw [List.filter_cons_of_neg (by simp [hba])]
      exact ih (List.nodup_cons.1 hn).2 ha'

/-! ## The claims -/

set_option maxRecDepth 40000 in
/-- C1: for every object written to the store, the hashed bytes are the
header `<kind-word> <decimal-byte-length>` + NUL + body, where the length is
the body's exact byte length; the ObjectId is the SHA-1 digest of those
bytes; and in particular `Blob "hello\n"` is hashed as the bytes
`"blob 6\0hello\n"`, whose SHA-1 digest is the reference id
`ce013625030ba8dba906f756967f9e9ca394464a`. -/
theorem C1_hash_input (o : ObjectHashTypes) (m c : List Nat)
    (h : encodeObject o = some (m, c)) :
    m = kindWord o ++ [32] ++ decimalBytes c.length ++ [0]
    ∧ (∀ fs fs' oid, write_object fs m c = Except.ok (fs', oid) →
        oid = sha1Hex (m ++ c))
    ∧ encodeObject (.Blob (ascii "hello\n"))
        = some (ascii "blob 6\x00", ascii "hello\n")
    ∧ sha1Hex (ascii "blob 6\x00hello\n")
        = ascii "ce013625030ba8dba906f756967f9e9ca394464a" := by
  refine ⟨?_, ?_, by decide, by decide⟩
  · have hb : ascii "blob " = ascii "blob" ++ [32] := by decide
    have ht : ascii "tree " = ascii "tree" ++ [32] := by decide
    have hcm : ascii "commit " = ascii "commit" ++ [32] := by decide
    cases o with
    | Blob content =>
      simp only [encodeObject, Option.some.injEq, Prod.mk.injEq] at h
      obtain ⟨hm, hcc⟩ := h
      subst hcc hm
      simp [kindWord, hb, List.append_assoc]
    | Tree items =>
      rw [encodeObject] at h
      cases henc : encodeTreeItems items with
      | none => rw [henc] at h; cases h
      | some content =>
        rw [henc] at h
        simp only [Option.map_some', Option.some.injEq, Prod.mk.injEq] at h
        obtain ⟨hm, hcc⟩ := h
        subst hcc hm
        simp [kindWord, ht, List.append_assoc]
    | Commit cc =>
      simp only [encodeObject, Option.some.injEq, Prod.mk.injEq] at h
      obtain ⟨hm, hcc⟩ := h
      subst hcc hm
      simp [kindWord, hcm, List.append_assoc]
  · intro fs fs' oid hw
    simp only [write_object, get_path_from_hash] at hw
    split at hw
    · simp only [Except.ok.injEq, Prod.mk.injEq] at hw
      exact hw.2.symm
    · simp only [Except.ok.injEq, Prod.mk.injEq] at hw
      exact hw.2.symm

/-- Witness for C1 at the spec's concrete scenario. -/
theorem C1_hash_input_witness :
    ascii "blob 6\x00" = kindWord (.Blob (ascii "hello\n")) ++ [32]
      ++ decimalBytes (ascii "hello\n").length ++ [0] :=
  (C1_hash_input (.Blob (ascii "hello\n")) (ascii "blob 6\x00")
    (ascii "hello\n") (by decide)).1

/-- C2: the line-480 sort makes the built tree independent of enumeration
order: any two permutations of the collected entries (directory entries have
pairwise distinct names) sort, encode and hash identically; and the spec's
concrete scenario `b.txt`, `a.txt` sorts to `a.txt`, `b.txt`. -/
theorem C2_sort_determinism (fs : Store) (l₁ l₂ : List TreeNode)
    (hp : l₁.Perm l₂) (hn : l₁.Pairwise fun a b => a.name ≠ b.name) :
    sortTreeNodes l₁ = sortTreeNodes l₂
    ∧ encodeObject (.Tree (sortTreeNodes l₁))
        = encodeObject (.Tree (sortTreeNodes l₂))
    ∧ write_object_hash fs (.Tree (sortTreeNodes l₁))
        = write_object_hash fs (.Tree (sortTreeNodes l₂))
    ∧ sortTreeNodes
        [⟨ascii "b.txt", List.replicate 40 48, 100644⟩,
         ⟨ascii "a.txt", List.replicate 40 48, 100644⟩]
      = [⟨ascii "a.txt", List.replicate 40 48, 100644⟩,
         ⟨ascii "b.txt", List.replicate 40 48, 100644⟩] := by
  have h := sortTreeNodes_eq_of_perm hp hn
  exact ⟨h, by rw [h], by rw [h], by decide⟩

/-- Witness for C2 at the spec's two-file scenario. -/
theorem C2_sort_determinism_witness :
    sortTreeNodes
      [⟨ascii "b.txt", List.replicate 40 48, 100644⟩,
       ⟨ascii "a.txt", List.replicate 40 48, 100644⟩]
    = sortTreeNodes
      [⟨ascii "a.txt", List.replicate 40 48, 100644⟩,
       ⟨ascii "b.txt", List.replicate 40 48, 100644⟩] :=
  (C2_sort_determinism []
    [⟨ascii "b.txt", List.replicate 40 48, 100644⟩,
     ⟨ascii "a.txt", List.replicate 40 48, 100644⟩]
    [⟨ascii "a.txt", List.replicate 40 48, 100644⟩,
     ⟨ascii "b.txt", List.replicate 40 48, 100644⟩]
    (by decide) (by decide)).1

set_option maxRecDepth 40000 in
/-- C4 (code bug): the `Result` of `read_exact` is discarded (`let _ =`,
line 254), so a body shorter than the declared length does NOT fail with a
truncated-body error — decoding succeeds on the zero-padded buffer.  Here
`"blob 6\0abc"` declares 6 body bytes but provides 3, and decoding returns
`Blob "abc\0\0\0"`. -/
theorem C4_truncated_body_not_an_error :
    parse_object_hash (ascii "blob 6\x00abc")
      = .ok (.Blob (ascii "abc" ++ [0, 0, 0])) := by decide

set_option maxRecDepth 40000 in
/-- C5 (code bug): when fewer than 20 bytes remain after a valid
`<mode> <name>\0` entry header, the slice
`buffer[sha_start..sha_start + NODE_HASH_BYTES_LENGTH]` (line 281) panics —
a crash, not a caller-visible error result.  `"tree 14\0100644 a\0abcde"`
has a valid entry header followed by only 5 bytes, and decoding hits the
panic (modelled as the distinguished `.panicked` outcome). -/
theorem C5_truncated_entry_panics :
    parse_object_hash (ascii "tree 14\x00100644 a\x00abcde")
      = .error .panicked := by decide

/-- C6: `write_object` is idempotent — a successful write returns the
content digest as id; writing the same `(meta_data, content)` again succeeds
with the same id and leaves the store unchanged (no rewrite); and when the
derived path already exists the store is returned untouched. -/
theorem C6_idempotent_write (fs fs₁ : Store) (m c oid : List Nat)
    (h : write_object fs m c = Except.ok (fs₁, oid)) :
    oid = sha1Hex (m ++ c)
    ∧ write_object fs₁ m c = Except.ok (fs₁, oid)
    ∧ (pathExists fs (object_full_path m c) = true → fs₁ = fs) := by
  have hpath : object_full_path m c
      = GIT_OBJECT_PATH ++ [47] ++ (sha1Hex (m ++ c)).take 2
        ++ ([47] ++ (sha1Hex (m ++ c)).drop 2) := by
    simp [object_full_path, List.append_assoc]
  simp only [write_object, get_path_from_hash] at h ⊢
  split at h
  · rename_i hex
    simp only [Except.ok.injEq, Prod.mk.injEq] at h
    obtain ⟨hfs, hoid⟩ := h
    subst hfs hoid
    refine ⟨rfl, ?_, fun _ => rfl⟩
    rw [if_pos hex]
  · rename_i hex
    simp only [Except.ok.injEq, Prod.mk.injEq] at h
    obtain ⟨hfs, hoid⟩ := h
    subst hfs hoid
    refine ⟨rfl, ?_, ?_⟩
    · rw [if_pos (by simp [pathExists])]
    · intro hcontra
      rw [hpath] at hcontra
      simp only [List.append_assoc] at hcontra hex
      exact absurd hcontra (by simpa using hex)

set_option maxRecDepth 100000 in
/-- Witness for C6: writing the empty blob (`"blob 0\0"`, the well-known
object id `e69de29bb2d1d6434b8b29ae775ad8c2e48c5391`) a second time returns
the same id and store. -/
theorem C6_idempotent_write_witness :
    write_object
      [(ascii ".git/objects/e6/9de29bb2d1d6434b8b29ae775ad8c2e48c5391",
        ascii "blob 0\x00")]
      (ascii "blob 0\x00") []
    = Except.ok
        ([(ascii ".git/objects/e6/9de29bb2d1d6434b8b29ae775ad8c2e48c5391",
           ascii "blob 0\x00")],
         ascii "e69de29bb2d1d6434b8b29ae775ad8c2e48c5391") :=
  (C6_idempotent_write [] _ (ascii "blob 0\x00") [] _ (by decide)).2.1

/-- C7: resolution of a hash prefix in the shard directory: no matching
filename is the `NotFound` error, two or more matches is the `Ambiguous`
error, exactly one match returns its path, and a full-length id present
among the (distinct) stored names resolves uniquely to itself. -/
theorem C7_prefix_resolution (files : List (List Nat)) (dir pfx : List Nat) :
    ((files.filter fun f => startsWith f pfx) = [] →
      get_object_path files dir pfx = .error .noMatching)
    ∧ (2 ≤ (files.filter fun f => startsWith f pfx).length →
      get_object_path files dir pfx = .error .multipleMatching)
    ∧ (∀ m, (files.filter fun f => startsWith f pfx) = [m] →
      get_object_path files dir pfx
        = .ok (GIT_OBJECT_PATH ++ [47] ++ dir ++ [47] ++ m))
    ∧ (files.Nodup → (∀ f ∈ files, f.length = pfx.length) → pfx ∈ files →
      get_object_path files dir pfx
        = .ok (GIT_OBJECT_PATH ++ [47] ++ dir ++ [47] ++ pfx)) := by
  have h3 : ∀ m, (files.filter fun f => startsWith f pfx) = [m] →
      get_object_path files dir pfx
        = .ok (GIT_OBJECT_PATH ++ [47] ++ dir ++ [47] ++ m) := by
    intro m hm
    simp [get_object_path, hm, List.append_assoc]
  refine ⟨?_, ?_, h3, ?_⟩
  · intro h0
    simp [get_object_path, h0]
  · intro h2
    have hne : ((files.filter fun f => startsWith f pfx).isEmpty) = false := by
      rcases hF : files.filter fun f => startsWith f pfx with _ | _
      · rw [hF] at h2; simp at h2
      · simp
    simp only [get_object_path]
    rw [if_neg (by simp [hne]), if_pos (by omega)]
  · intro hnd hlen hmem
    have hcong : (files.filter fun f => startsWith f pfx)
        = files.filter fun f => decide (f = pfx) :=
      List.filter_congr fun f hf => by
        rcases hb : startsWith f pfx with _ | _
        · symm
          simp only [decide_eq_false_iff_not]
          intro hfp
          rw [(startsWith_iff_eq f pfx (hlen f hf)).2 hfp] at hb
          cases hb
        · symm
          simp only [decide_eq_true_eq]
          exact (startsWith_iff_eq f pfx (hlen f hf)).1 hb
    exact h3 pfx (hcong.trans (filter_nodup_singleton hnd hmem))

/-- Witness for C7: two stored names both matching the prefix `"ab"` make
resolution ambiguous. -/
theorem C7_prefix_resolution_witness :
    get_object_path [ascii "abc", ascii "abd"] (ascii "aa") (ascii "ab")
      = .error .multipleMatching :=
  (C7_prefix_resolution [ascii "abc", ascii "abd"] (ascii "aa")
    (ascii "ab")).2.1 (by decide)

/-- C3: storing a blob and decoding the stored bytes returns it unchanged:
for every valid-UTF-8 content `c`, the stored stream is
`"blob <len>\0" ++ c` and `parse_object_hash` on it yields `Blob c`. -/
theorem C3_blob_round_trip (c : List Nat) (h : validUtf8 c = true) :
    parse_object_hash (ascii "blob " ++ decimalBytes c.length ++ [0] ++ c)
      = .ok (.Blob c)
    ∧ encodeObject (.Blob c)
      = some (ascii "blob " ++ decimalBytes c.length ++ [0], c) := by
  refine ⟨?_, rfl⟩
  have hblob : ascii "blob " = ascii "blob" ++ [32] := by decide
  set D := decimalBytes c.length with hD
  set H := ascii "blob " ++ D with hH
  have hS : ascii "blob " ++ D ++ [0] ++ c = H ++ (0 :: c) := by
    simp [hH, List.append_assoc]
  rw [hS]
  have hH0 : H.findIdx? (· == 0) = none := by
    rw [hH, List.findIdx?_append]
    have h1 : (ascii "blob ").findIdx? (· == 0) = none := by decide
    have h2 : D.findIdx? (· == 0) = none :=
      List.findIdx?_eq_none_iff.2 fun x hx =>
        beq_eq_false_iff_ne.2 (decimalBytes_no_nul hx)
    rw [h1, h2]
    rfl
  have hfind : (H ++ (0 :: c)).findIdx? (· == 0) = some H.length := by
    rw [List.findIdx?_append, hH0, List.findIdx?_cons]
    simp
  have htake : (H ++ (0 :: c)).take H.length = H := List.take_left H (0 :: c)
  have hdrop : (H ++ (0 :: c)).drop (H.length + 1) = c := by
    simp
  have hHutf : validUtf8 H = true := by
    refine validUtf8_ascii fun x hx => ?_
    rw [hH] at hx
    rcases List.mem_append.1 hx with hx | hx
    · have hb : ∀ y ∈ ascii "blob ", y < 128 := by decide
      exact hb x hx
    · exact decimalBytes_ascii hx
  have hsplit : H.splitOn 32 = [ascii "blob", D] := by
    have : H = List.intercalate [32] [ascii "blob", D] := by
      rw [intercalate_pair, hH, hblob]
    rw [this]
    refine List.splitOn_intercalate [ascii "blob", D] 32 ?_ (by simp)
    intro l hl
    rcases List.mem_cons.1 hl with rfl | hl
    · decide
    · simp at hl
      subst hl
      exact fun hsp => decimalBytes_no_space hsp rfl
  have hmeta : parse_file_metadata H = .ok (ascii "blob", D) := by
    rw [parse_file_metadata, hsplit]
  simp only [parse_object_hash]
  rw [hfind]
  simp only [htake, hdrop, hHutf, if_true, hmeta, hD, rustParseNat?_decimalBytes,
    List.take_length, Nat.sub_self, List.replicate, List.append_nil, if_pos rfl,
    h]

/-- Witness for C3: round-tripping the blob `"hi\n"`. -/
theorem C3_blob_round_trip_witness :
    parse_object_hash
        (ascii "blob " ++ decimalBytes (ascii "hi\n").length ++ [0]
          ++ ascii "hi\n")
      = .ok (.Blob (ascii "hi\n")) :=
  (C3_blob_round_trip (ascii "hi\n") (by decide)).1

/-- C8: the encoded commit body is exactly a `tree` line, a `parent` line
iff a parent is present, an author line and a committer line (each
`<field> <name> <email> <unix-seconds> <±HHMM>`), one blank line, then the
message with nothing appended — i.e. the `Display` rendering coincides with
the spec's description. -/
theorem C8_commit_encoding (c : CommitContent) :
    CommitContent.fmt c = commitSpecBytes c := by
  have h1 : ascii "tree " = ascii "tree" ++ [32] := by decide
  have h2 : ascii "parent " = ascii "parent" ++ [32] := by decide
  have h3 : ascii "author " = ascii "author" ++ [32] := by decide
  have h4 : ascii "committer " = ascii "committer" ++ [32] := by decide
  cases hp : c.parent_sha <;>
    simp [CommitContent.fmt, commitSpecBytes, specPersonLine, Timestamp.fmt,
      hp, h1, h2, h3, h4, List.append_assoc]

set_option maxRecDepth 400000 in
/-- C9: commit decoding splits an author/committer payload on single spaces
and reads it positionally — the last two tokens are the unix-seconds and
timezone slots, the token before them is the email, and all preceding
tokens rejoined with single spaces form the name; end-to-end, a commit with
multi-word author and committer names decodes accordingly. -/
theorem C9_person_line_positional (names : List (List Nat))
    (email ts tz : List Nat)
    (hn : ∀ t ∈ names, (32 : Nat) ∉ t) (he : (32 : Nat) ∉ email)
    (ht : (32 : Nat) ∉ ts) (hz : (32 : Nat) ∉ tz) :
    author_fields (List.intercalate [32] (names ++ [email, ts, tz]))
      = (List.intercalate [32] names, some email, some ts, some tz)
    ∧ parse_commit (CommitContent.fmt
        ⟨ascii "aaaaaaaaaaaaaaaaaaaaaaaaaaaaaaaaaaaaaaaa", none,
         ascii "Jane Mary Doe", ascii "jane@x.com",
         ascii "Com Mitter", ascii "c@d.com",
         ascii "init", ⟨1700000000, false, 7, 0⟩⟩)
      = .ok ⟨ascii "aaaaaaaaaaaaaaaaaaaaaaaaaaaaaaaaaaaaaaaa", none,
         ascii "Jane Mary Doe", ascii "jane@x.com",
         ascii "Com Mitter", ascii "c@d.com",
         ascii "init", ⟨1700000000, false, 7, 0⟩⟩ := by
  refine ⟨?_, by decide⟩
  have hsplit : (List.intercalate [32] (names ++ [email, ts, tz])).splitOn 32
      = names ++ [email, ts, tz] := by
    refine List.splitOn_intercalate _ 32 ?_ (by simp)
    intro l hl
    rcases List.mem_append.1 hl with hl | hl
    · exact hn l hl
    · simp only [List.mem_cons, List.not_mem_nil, or_false] at hl
      rcases hl with rfl | rfl | rfl
      · exact he
      · exact ht
      · exact hz
  simp only [author_fields, hsplit]
  have hlen : (names ++ [email, ts, tz]).length = names.length + 3 := by simp
  rw [hlen]
  have e3 : names.length + 3 - 3 = names.length := by omega
  have e2 : names.length + 3 - 2 = names.length + 1 := by omega
  have e1 : names.length + 3 - 1 = names.length + 2 := by omega
  rw [e3, e2, e1]
  simp only [Prod.mk.injEq]
  refine ⟨?_, ?_, ?_, ?_⟩
  · rw [List.take_left]
  · rw [List.getElem?_append_right (le_refl _)]
    simp
  · rw [List.getElem?_append_right (by omega)]
    have : names.length + 1 - names.length = 1 := by omega
    rw [this]
    rfl
  · rw [List.getElem?_append_right (by omega)]
    have : names.length + 2 - names.length = 2 := by omega
    rw [this]
    rfl

/-- Witness for C9: the three-word name `Jane Mary Doe`. -/
theorem C9_person_line_positional_witness :
    author_fields (List.intercalate [32]
      ([ascii "Jane", ascii "Mary", ascii "Doe"]
        ++ [ascii "jane@x.com", ascii "1700000000", ascii "+0700"]))
    = (List.intercalate [32] [ascii "Jane", ascii "Mary", ascii "Doe"],
       some (ascii "jane@x.com"), some (ascii "1700000000"),
       some (ascii "+0700")) :=
  (C9_person_line_positional [ascii "Jane", ascii "Mary", ascii "Doe"]
    (ascii "jane@x.com") (ascii "1700000000") (ascii "+0700")
    (by decide) (by decide) (by decide) (by decide)).1

set_option maxRecDepth 400000 in
/-- C10: whenever commit decoding succeeds, the message is rebuilt exactly
by splitting the body on newlines, taking the lines after the first empty
line, dropping the empty ones and rejoining with single newlines; hence
blank lines inside a message (and a trailing newline) are lost — encoding
then decoding the message `"a\n\nb\n"` yields `"a\nb"`. -/
theorem C10_message_reconstruction (body : List Nat) (cc : CommitContent)
    (h : parse_commit body = .ok cc) :
    some cc.message = message_of body
    ∧ parse_commit (CommitContent.fmt
        ⟨ascii "aaaaaaaaaaaaaaaaaaaaaaaaaaaaaaaaaaaaaaaa", none,
         ascii "A", ascii "a@b", ascii "C", ascii "c@d",
         ascii "a\n\nb\n", ⟨1700000000, false, 0, 0⟩⟩)
      = .ok ⟨ascii "aaaaaaaaaaaaaaaaaaaaaaaaaaaaaaaaaaaaaaaa", none,
         ascii "A", ascii "a@b", ascii "C", ascii "c@d",
         ascii "a\nb", ⟨1700000000, false, 0, 0⟩⟩
    ∧ ascii "a\nb" ≠ ascii "a\n\nb\n" := by
  refine ⟨?_, by decide, by decide⟩
  simp only [parse_commit] at h
  repeat' split at h
  all_goals cases h
  simp_all only [message_of, Option.map_some', Option.some.injEq]

set_option maxRecDepth 400000 in
/-- Witness for C10: the blank-line message scenario. -/
theorem C10_message_reconstruction_witness :
    some (ascii "a\nb") = message_of (CommitContent.fmt
      ⟨ascii "aaaaaaaaaaaaaaaaaaaaaaaaaaaaaaaaaaaaaaaa", none,
       ascii "A", ascii "a@b", ascii "C", ascii "c@d",
       ascii "a\n\nb\n", ⟨1700000000, false, 0, 0⟩⟩) :=
  (C10_message_reconstruction
    (CommitContent.fmt
      ⟨ascii "aaaaaaaaaaaaaaaaaaaaaaaaaaaaaaaaaaaaaaaa", none,
       ascii "A", ascii "a@b", ascii "C", ascii "c@d",
       ascii "a\n\nb\n", ⟨1700000000, false, 0, 0⟩⟩)
    ⟨ascii "aaaaaaaaaaaaaaaaaaaaaaaaaaaaaaaaaaaaaaaa", none,
     ascii "A", ascii "a@b", ascii "C", ascii "c@d",
     ascii "a\nb", ⟨1700000000, false, 0, 0⟩⟩
    (by decide)).1

end Got
